import Mathlib

/-!
# NBLAST-style morphological similarity scoring: a formal model

A formal development of the NBLAST scoring engine described by the
repository's documentation: dotprops representations, nearest-neighbour
matching, a binned scoring-table lookup, pairwise scoring with optional
normalization, and an all-by-all batch orchestrator.

The repository ships only a tutorial notebook; the engine itself (the
`navis` core called by that notebook) is not part of the source tree, so
every definition below is modelled from the specification's words.
Coordinates are modelled exactly, over the rational numbers; nearest
neighbours are selected by squared Euclidean distance (the ordering agrees
with Euclidean distance), and an exact bridge between distance binning and
squared-distance binning is proved.
-/

namespace NBlast

/-- Modelled from the spec: dot product of two coordinate vectors
(points and tangents are coordinate lists, so that dotprops of different
coordinate-space dimensionality can be expressed). -/
def dot (u v : List ℚ) : ℚ := (List.zipWith (fun a b => a * b) u v).sum

/-- Modelled from the spec: squared Euclidean distance between two points.
The square root is monotone, so nearest-neighbour selection and tie
structure by squared distance agree with Euclidean distance. -/
def dist2 (p q : List ℚ) : ℚ := (List.zipWith (fun a b => (a - b) ^ 2) p q).sum

/-- Modelled from the spec: one dotprops record, a sample point with its
unit tangent vector and optional local collinearity value alpha. -/
structure DRec where
  point : List ℚ
  tangent : List ℚ
  alpha : Option ℚ
deriving DecidableEq

instance : Inhabited DRec := ⟨⟨[], [], none⟩⟩

/-- Modelled from the spec: a Dotprops is an ordered sequence of records,
each a point with a unit tangent (and optional alpha). -/
structure Dotprops where
  recs : List DRec
deriving DecidableEq

instance : Inhabited Dotprops := ⟨⟨[]⟩⟩

/-- Number of points of a Dotprops. -/
def Dotprops.size (D : Dotprops) : ℕ := D.recs.length

/-- Coordinate-space dimensionality of a Dotprops (length of its points). -/
def Dotprops.dim (D : Dotprops) : ℕ := ((D.recs.headD default).point).length

/-- The i-th sample point of a Dotprops. -/
def Dotprops.pointAt (D : Dotprops) (i : ℕ) : List ℚ := (D.recs.getD i default).point

/-- The i-th tangent vector of a Dotprops. -/
def Dotprops.tangentAt (D : Dotprops) (i : ℕ) : List ℚ := (D.recs.getD i default).tangent

/-- Modelled from the spec: the error taxonomy of the scoring core. -/
inductive NBlastError where
  | invalidParameter
  | insufficientPoints
  | emptyDotprops
  | invalidScoringMatrix
  | dimensionMismatch
  | cancelled
deriving DecidableEq

/-- Modelled from the spec: the trained scoring table, a 2-D lookup table
over discretized bins of (distance, absolute dot product), holding the bin
boundaries of each axis and one scalar cell per bin pair. -/
structure ScoringMatrix where
  distBounds : List ℚ
  dotBounds : List ℚ
  cells : List (List ℚ)
deriving DecidableEq

/-- Modelled from the spec: index of the bin containing `x`, for bin
boundaries `[b0, b1, ..., bm]` delimiting the m bins `[b_i, b_{i+1})`;
values outside the outer boundaries clamp to the nearest edge bin. -/
def binIndex (bounds : List ℚ) (x : ℚ) : ℕ :=
  min ((bounds.drop 1).countP (fun b => decide (b ≤ x))) (bounds.length - 2)

/-- Modelled from the spec: the Scoring Function: locate the bin of the
ScoringMatrix containing `(d, a)` and return that cell's value; inputs
outside the outer bin boundaries clamp to the nearest edge bin, and the
lookup never fails. -/
def lookup (m : ScoringMatrix) (d a : ℚ) : ℚ :=
  (m.cells.getD (binIndex m.distBounds d) []).getD (binIndex m.dotBounds a) 0

/-- Distance-bin location fed with a SQUARED distance: compares against the
squared boundaries. For nonnegative boundaries this agrees exactly with
`binIndex` at the Euclidean distance (see `binIndexSq_eq_binIndex`). -/
def binIndexSq (bounds : List ℚ) (x2 : ℚ) : ℕ :=
  min ((bounds.drop 1).countP (fun b => decide (b ^ 2 ≤ x2))) (bounds.length - 2)

/-- Scoring Function lookup taking the squared Euclidean distance (exact
carrier of the Euclidean-distance lookup, see `lookupSq_eq_lookup`). -/
def lookupSq (m : ScoringMatrix) (d2 a : ℚ) : ℚ :=
  (m.cells.getD (binIndexSq m.distBounds d2) []).getD (binIndex m.dotBounds a) 0

/-- Strictly increasing bin boundaries. -/
def sortedBounds (bs : List ℚ) : Prop := List.Pairwise (fun a b => a < b) bs

instance (bs : List ℚ) : Decidable (sortedBounds bs) := by
  unfold sortedBounds; infer_instance

/-- Modelled from the spec: a well-formed ScoringMatrix has strictly
increasing bin boundaries on both axes (distance boundaries nonnegative),
at least one bin per axis, and a cell for every bin pair. -/
def ScoringMatrix.valid (m : ScoringMatrix) : Prop :=
  sortedBounds m.distBounds ∧ sortedBounds m.dotBounds ∧
  (∀ b ∈ m.distBounds, 0 ≤ b) ∧
  2 ≤ m.distBounds.length ∧ 2 ≤ m.dotBounds.length ∧
  m.cells.length = m.distBounds.length - 1 ∧
  ∀ row ∈ m.cells, row.length = m.dotBounds.length - 1

instance (m : ScoringMatrix) : Decidable m.valid := by
  unfold ScoringMatrix.valid; infer_instance

/-- Modelled from the spec: the Spatial Index nearest-neighbour search over
the stored points, returning the index of the closest stored point (by
Euclidean distance, here carried as the squared distance) together with
that squared distance; ties resolve to the lowest stored index. `i` is the
index of the first stored point in the enclosing array. -/
def nnFrom (q : List ℚ) (i : ℕ) : List (List ℚ) → Option (ℕ × ℚ)
  | [] => none
  | p :: ps =>
    match nnFrom q (i + 1) ps with
    | none => some (i, dist2 p q)
    | some (j, dj) => if dj < dist2 p q then some (j, dj) else some (i, dist2 p q)

/-- Modelled from the spec: nearest-neighbour query of the Spatial Index
built over `pts`, for query point `q`. -/
def nnQuery (pts : List (List ℚ)) (q : List ℚ) : Option (ℕ × ℚ) := nnFrom q 0 pts

/-- Raw score contribution of one query record against a target: find the
nearest target point via the Spatial Index, and look up the scoring table
at the Euclidean distance and the absolute dot product of the tangents. -/
def scoreContribution (m : ScoringMatrix) (T : Dotprops) (r : DRec) : ℚ :=
  match nnQuery (T.recs.map (fun s => s.point)) r.point with
  | none => 0
  | some (j, d2v) => lookupSq m d2v |dot r.tangent (T.recs.getD j default).tangent|

/-- Modelled from the spec: the unnormalized (raw) NBLAST score: for every
query record, find its nearest neighbour in the target and accumulate the
scoring-table contributions over all query points. -/
def rawScore (m : ScoringMatrix) (Q T : Dotprops) : ℚ :=
  (Q.recs.map (scoreContribution m T)).sum

/-- Modelled from the spec: the Pairwise Scorer. It fails with
`emptyDotprops` if either operand has zero points and with
`dimensionMismatch` if the operands live in different coordinate-space
dimensionalities; otherwise it returns the raw score, optionally
normalized by the query's self-self raw score. The self-self case of
normalization is the explicitly short-circuited constant 1 that the spec
mandates (score/score, exact). -/
def pairwiseScore (m : ScoringMatrix) (Q T : Dotprops) (normalize : Bool) :
    Except NBlastError ℚ :=
  if Q.size = 0 ∨ T.size = 0 then .error .emptyDotprops
  else if Q.dim ≠ T.dim then .error .dimensionMismatch
  else if normalize then
    if Q = T then .ok 1 else .ok (rawScore m Q T / rawScore m Q Q)
  else .ok (rawScore m Q T)

/-- Effectful traversal of a list: the first error aborts the whole
traversal, so no result list is produced on failure. -/
def exceptMap {ε α β : Type} (f : α → Except ε β) : List α → Except ε (List β)
  | [] => .ok []
  | a :: as =>
    match f a with
    | .error e => .error e
    | .ok b =>
      match exceptMap f as with
      | .error e => .error e
      | .ok bs => .ok (b :: bs)

/-- Modelled from the spec: the Batch/All-by-All Orchestrator: the full
|queries| x |targets| score table obtained by invoking the Pairwise Scorer
for every pair; any per-pair error aborts the entire batch. -/
def scoreMatrix (m : ScoringMatrix) (queries targets : List Dotprops)
    (normalize : Bool) : Except NBlastError (List (List ℚ)) :=
  exceptMap (fun q => exceptMap (fun t => pairwiseScore m q t normalize) targets) queries

/-! ## Nearest-neighbour search: characterization -/

theorem nnFrom_nil (q : List ℚ) (i : ℕ) : nnFrom q i [] = none := rfl

theorem nnFrom_cons_ne_none (q p : List ℚ) (ps : List (List ℚ)) (i : ℕ) :
    nnFrom q i (p :: ps) ≠ none := by
  cases h : nnFrom q (i + 1) ps with
  | none => simp [nnFrom, h]
  | some jd =>
    obtain ⟨j, dj⟩ := jd
    by_cases hlt : dj < dist2 p q <;> simp [nnFrom, h, hlt]

theorem nnFrom_some_spec (q : List ℚ) :
    ∀ (pts : List (List ℚ)) (i j : ℕ) (dj : ℚ),
      nnFrom q i pts = some (j, dj) →
      ∃ off, off < pts.length ∧ j = i + off ∧ dj = dist2 (pts.getD off []) q ∧
        (∀ k, k < pts.length → dj ≤ dist2 (pts.getD k []) q) ∧
        (∀ k, k < off → dj < dist2 (pts.getD k []) q) := by
  intro pts
  induction pts with
  | nil => intro i j dj h; simp [nnFrom] at h
  | cons p ps ih =>
    intro i j dj h
    cases hrec : nnFrom q (i + 1) ps with
    | none =>
      have hps : ps = [] := by
        cases ps with
        | nil => rfl
        | cons a l => exact absurd hrec (nnFrom_cons_ne_none q a l (i + 1))
      simp [nnFrom, hrec] at h
      obtain ⟨hj, hd⟩ := h
      subst hps
      refine ⟨0, by simp, by omega, by simp [hd], ?_, by omega⟩
      intro k hk
      have hk0 : k = 0 := by simpa using hk
      simp [hk0, hd]
    | some jd =>
      obtain ⟨j1, dj1⟩ := jd
      obtain ⟨off1, hoff1, hj1, hd1, hmin1, hstr1⟩ := ih (i + 1) j1 dj1 hrec
      by_cases hlt : dj1 < dist2 p q
      · simp [nnFrom, hrec, hlt] at h
        obtain ⟨hj, hd⟩ := h
        refine ⟨off1 + 1, by simpa using hoff1, by omega, ?_, ?_, ?_⟩
        · rw [← hd]; simpa using hd1
        · intro k hk
          cases k with
          | zero => rw [← hd]; simpa using le_of_lt hlt
          | succ k1 =>
            have hk1 : k1 < ps.length := by simpa using hk
            rw [← hd]; simpa using hmin1 k1 hk1
        · intro k hk
          cases k with
          | zero => rw [← hd]; simpa using hlt
          | succ k1 =>
            have hk1 : k1 < off1 := by omega
            rw [← hd]; simpa using hstr1 k1 hk1
      · simp [nnFrom, hrec, hlt] at h
        obtain ⟨hj, hd⟩ := h
        have hle : dist2 p q ≤ dj1 := le_of_not_lt hlt
        refine ⟨0, by simp, by omega, by simp [← hd], ?_, by omega⟩
        intro k hk
        cases k with
        | zero => simp [← hd]
        | succ k1 =>
          have hk1 : k1 < ps.length := by simpa using hk
          calc dj = dist2 p q := hd.symm
            _ ≤ dj1 := hle
            _ ≤ dist2 (ps.getD k1 []) q := hmin1 k1 hk1

theorem nnQuery_isSome (pts : List (List ℚ)) (q : List ℚ) (h : pts ≠ []) :
    ∃ jd, nnQuery pts q = some jd := by
  cases pts with
  | nil => exact absurd rfl h
  | cons p ps =>
    cases hq : nnQuery (p :: ps) q with
    | none => exact absurd hq (nnFrom_cons_ne_none q p ps 0)
    | some jd => exact ⟨jd, rfl⟩

theorem nnQuery_spec (pts : List (List ℚ)) (q : List ℚ) (j : ℕ) (dj : ℚ)
    (h : nnQuery pts q = some (j, dj)) :
    j < pts.length ∧ dj = dist2 (pts.getD j []) q ∧
    (∀ k, k < pts.length → dj ≤ dist2 (pts.getD k []) q) ∧
    (∀ k, k < j → dj < dist2 (pts.getD k []) q) := by
  obtain ⟨off, hoff, hj, hd, hmin, hstr⟩ := nnFrom_some_spec q pts 0 j dj h
  have hj0 : j = off := by omega
  subst hj0
  exact ⟨hoff, hd, hmin, hstr⟩

/-! ## Bin location: characterization -/

theorem sorted_le_of_index (bs : List ℚ) (hs : sortedBounds bs) (i j : ℕ)
    (hij : i ≤ j) (hj : j < bs.length) : bs.getD i 0 ≤ bs.getD j 0 := by
  have hi : i < bs.length := lt_of_le_of_lt hij hj
  rw [List.getD_eq_getElem bs 0 hi, List.getD_eq_getElem bs 0 hj]
  rcases eq_or_lt_of_le hij with heq | hlt
  · subst heq; exact le_refl _
  · have hp := List.pairwise_iff_get.mp hs ⟨i, hi⟩ ⟨j, hj⟩ hlt
    simpa using le_of_lt hp

theorem binIndex_of_mem (bs : List ℚ) (x : ℚ) (i : ℕ) (hs : sortedBounds bs)
    (hi : i + 1 < bs.length) (h1 : bs.getD i 0 ≤ x) (h2 : x < bs.getD (i + 1) 0) :
    binIndex bs x = i := by
  have hlen : (bs.drop 1).length = bs.length - 1 := List.length_drop 1 bs
  have hcount : (bs.drop 1).countP (fun b => decide (b ≤ x)) = i := by
    have hsplit := List.take_append_drop i (bs.drop 1)
    calc (bs.drop 1).countP (fun b => decide (b ≤ x))
        = (((bs.drop 1).take i) ++ ((bs.drop 1).drop i)).countP
            (fun b => decide (b ≤ x)) := by rw [hsplit]
      _ = i := by
          rw [List.countP_append]
          have htake : ((bs.drop 1).take i).countP (fun b => decide (b ≤ x)) =
              ((bs.drop 1).take i).length := by
            apply List.countP_eq_length.mpr
            intro a ha
            obtain ⟨n, hn, hna⟩ := List.mem_iff_getElem.mp ha
            have hn2 : n < i := by
              have := hn
              rw [List.length_take] at this
              omega
            have hn3 : 1 + n < bs.length := by omega
            have hav : a = bs.getD (1 + n) 0 := by
              rw [← hna, List.getElem_take, List.getElem_drop,
                List.getD_eq_getElem bs 0 hn3]
            have hle : bs.getD (1 + n) 0 ≤ bs.getD i 0 :=
              sorted_le_of_index bs hs (1 + n) i (by omega) (by omega)
            simp only [decide_eq_true_eq]
            rw [hav]
            exact le_trans hle h1
          have hdrop : ((bs.drop 1).drop i).countP (fun b => decide (b ≤ x)) = 0 := by
            apply List.countP_eq_zero.mpr
            intro a ha
            obtain ⟨n, hn, hna⟩ := List.mem_iff_getElem.mp ha
            have hn3 : 1 + (i + n) < bs.length := by
              have := hn
              rw [List.length_drop, List.length_drop] at this
              omega
            have hav : a = bs.getD (1 + (i + n)) 0 := by
              rw [← hna, List.getElem_drop, List.getElem_drop,
                List.getD_eq_getElem bs 0 hn3]
            have hle : bs.getD (i + 1) 0 ≤ bs.getD (1 + (i + n)) 0 :=
              sorted_le_of_index bs hs (i + 1) (1 + (i + n)) (by omega) hn3
            simp only [decide_eq_true_eq]
            rw [hav]
            exact not_le.mpr (lt_of_lt_of_le h2 hle)
          rw [htake, hdrop, List.length_take]
          have : i ≤ (bs.drop 1).length := by omega
          omega
  unfold binIndex
  rw [hcount]
  omega

theorem binIndex_clamp_high (bs : List ℚ) (x : ℚ) (hs : sortedBounds bs)
    (hlen : 2 ≤ bs.length) (hx : bs.getD (bs.length - 1) 0 ≤ x) :
    binIndex bs x = bs.length - 2 := by
  have hcount : (bs.drop 1).countP (fun b => decide (b ≤ x)) = (bs.drop 1).length := by
    apply List.countP_eq_length.mpr
    intro a ha
    obtain ⟨n, hn, hna⟩ := List.mem_iff_getElem.mp ha
    have hn3 : 1 + n < bs.length := by
      have := hn
      rw [List.length_drop] at this
      omega
    have hav : a = bs.getD (1 + n) 0 := by
      rw [← hna, List.getElem_drop, List.getD_eq_getElem bs 0 hn3]
    have hle : bs.getD (1 + n) 0 ≤ bs.getD (bs.length - 1) 0 :=
      sorted_le_of_index bs hs (1 + n) (bs.length - 1) (by omega) (by omega)
    simp only [decide_eq_true_eq]
    rw [hav]
    exact le_trans hle hx
  unfold binIndex
  rw [hcount, List.length_drop]
  omega

theorem binIndex_clamp_low (bs : List ℚ) (x : ℚ) (hs : sortedBounds bs)
    (hx : x < bs.getD 0 0) : binIndex bs x = 0 := by
  have hcount : (bs.drop 1).countP (fun b => decide (b ≤ x)) = 0 := by
    apply List.countP_eq_zero.mpr
    intro a ha
    obtain ⟨n, hn, hna⟩ := List.mem_iff_getElem.mp ha
    have hn3 : 1 + n < bs.length := by
      have := hn
      rw [List.length_drop] at this
      omega
    have hav : a = bs.getD (1 + n) 0 := by
      rw [← hna, List.getElem_drop, List.getD_eq_getElem bs 0 hn3]
    have hle : bs.getD 0 0 ≤ bs.getD (1 + n) 0 :=
      sorted_le_of_index bs hs 0 (1 + n) (by omega) hn3
    simp only [decide_eq_true_eq]
    rw [hav]
    exact not_le.mpr (lt_of_lt_of_le hx hle)
  unfold binIndex
  rw [hcount]
  omega

theorem binIndexSq_eq_binIndex (bs : List ℚ) (d : ℚ) (h0 : ∀ b ∈ bs, 0 ≤ b)
    (hd : 0 ≤ d) : binIndexSq bs (d ^ 2) = binIndex bs d := by
  unfold binIndexSq binIndex
  congr 1
  apply List.countP_congr
  intro b hb
  have hb0 : 0 ≤ b := h0 b (List.mem_of_mem_drop hb)
  simp only [decide_eq_true_eq]
  constructor
  · exact fun h => le_of_pow_le_pow_left₀ two_ne_zero hd h
  · exact fun h => pow_le_pow_left₀ hb0 h 2

/-- The squared-distance lookup agrees exactly with the Euclidean-distance
lookup of the Scoring Function, for any nonnegative distance. -/
theorem lookupSq_eq_lookup (m : ScoringMatrix) (d a : ℚ)
    (h0 : ∀ b ∈ m.distBounds, 0 ≤ b) (hd : 0 ≤ d) :
    lookupSq m (d ^ 2) a = lookup m d a := by
  unfold lookupSq lookup
  rw [binIndexSq_eq_binIndex m.distBounds d h0 hd]

/-! ## Effectful traversal: characterization -/

theorem exceptMap_ok_length {ε α β : Type} (f : α → Except ε β) :
    ∀ (l : List α) (bs : List β), exceptMap f l = .ok bs → bs.length = l.length := by
  intro l
  induction l with
  | nil =>
    intro bs h
    simp only [exceptMap] at h
    cases h
    rfl
  | cons a as ih =>
    intro bs h
    simp only [exceptMap] at h
    cases hfa : f a with
    | error e => rw [hfa] at h; cases h
    | ok b =>
      rw [hfa] at h
      cases hrec : exceptMap f as with
      | error e => rw [hrec] at h; cases h
      | ok bs1 =>
        rw [hrec] at h
        cases h
        simp [ih bs1 hrec]

theorem exceptMap_ok_getD {ε α β : Type} (f : α → Except ε β) (da : α) (db : β) :
    ∀ (l : List α) (bs : List β), exceptMap f l = .ok bs →
      ∀ i, i < l.length → f (l.getD i da) = .ok (bs.getD i db) := by
  intro l
  induction l with
  | nil => intro bs h i hi; simp at hi
  | cons a as ih =>
    intro bs h i hi
    simp only [exceptMap] at h
    cases hfa : f a with
    | error e => rw [hfa] at h; cases h
    | ok b =>
      rw [hfa] at h
      cases hrec : exceptMap f as with
      | error e => rw [hrec] at h; cases h
      | ok bs1 =>
        rw [hrec] at h
        cases h
        cases i with
        | zero => simpa using hfa
        | succ i1 =>
          have hi1 : i1 < as.length := by simpa using hi
          simpa using ih bs1 hrec i1 hi1

/-! ## Sums over a list as sums over indices -/

theorem map_eq_range_map {α β : Type} (g : α → β) (d : α) :
    ∀ l : List α, l.map g = (List.range l.length).map (fun i => g (l.getD i d)) := by
  intro l
  induction l with
  | nil => simp
  | cons a as ih =>
    rw [List.length_cons, List.range_succ_eq_map, List.map_cons, List.map_cons,
      List.map_map]
    simp only [List.getD_cons_zero]
    congr 1

/-! ## Squared distance is symmetric -/

theorem dist2_cons (a b : ℚ) (ps qs : List ℚ) :
    dist2 (a :: ps) (b :: qs) = (a - b) ^ 2 + dist2 ps qs := by
  simp [dist2]

theorem dist2_comm : ∀ p q : List ℚ, dist2 p q = dist2 q p := by
  intro p
  induction p with
  | nil => intro q; cases q <;> simp [dist2]
  | cons a ps ih =>
    intro q
    cases q with
    | nil => simp [dist2]
    | cons b qs =>
      rw [dist2_cons, dist2_cons, ih qs]
      have hsq : ((a - b) ^ 2 : ℚ) = (b - a) ^ 2 := by ring
      rw [hsq]

/-! ## Pairwise scorer: characterization -/

theorem pairwiseScore_false_ok (m : ScoringMatrix) (Q T : Dotprops)
    (hQ : Q.recs ≠ []) (hT : T.recs ≠ []) (hdim : Q.dim = T.dim) :
    pairwiseScore m Q T false = .ok (rawScore m Q T) := by
  have h1 : Q.size ≠ 0 := by simpa [Dotprops.size, List.length_eq_zero] using hQ
  have h2 : T.size ≠ 0 := by simpa [Dotprops.size, List.length_eq_zero] using hT
  simp [pairwiseScore, h1, h2, hdim]

theorem map_point_getD (T : Dotprops) (j : ℕ) (hj : j < T.recs.length) :
    (T.recs.map (fun s => s.point)).getD j [] = T.pointAt j := by
  have hj2 : j < (T.recs.map (fun s => s.point)).length := by simpa using hj
  rw [List.getD_eq_getElem _ _ hj2, List.getElem_map, Dotprops.pointAt,
    List.getD_eq_getElem _ _ hj]

/-- C1: the unnormalized pairwise score is the sum, over all query points,
of the Scoring Function applied to the Euclidean distance to the nearest
target point (found via the target's spatial index, ties to the lowest
index) and the absolute dot product of the matched tangents. The nearest
neighbour is characterized by minimality of the (squared) Euclidean
distance; the final conjunct states that the squared-distance lookup used
in the sum is exactly the Scoring Function lookup at the Euclidean
distance. -/
theorem raw_score_is_sum_of_nn_lookups (m : ScoringMatrix) (Q T : Dotprops)
    (hQ : Q.recs ≠ []) (hT : T.recs ≠ []) (hdim : Q.dim = T.dim)
    (hb : ∀ b ∈ m.distBounds, 0 ≤ b) :
    ∃ mt : ℕ → ℕ,
      (∀ i, i < Q.size → mt i < T.size ∧
        (∀ k, k < T.size →
          dist2 (Q.pointAt i) (T.pointAt (mt i)) ≤ dist2 (Q.pointAt i) (T.pointAt k)) ∧
        (∀ k, k < mt i →
          dist2 (Q.pointAt i) (T.pointAt (mt i)) < dist2 (Q.pointAt i) (T.pointAt k))) ∧
      pairwiseScore m Q T false = .ok (((List.range Q.size).map (fun i =>
        lookupSq m (dist2 (Q.pointAt i) (T.pointAt (mt i)))
          |dot (Q.tangentAt i) (T.tangentAt (mt i))|)).sum) ∧
      (∀ d a : ℚ, 0 ≤ d → lookupSq m (d ^ 2) a = lookup m d a) := by
  have hTm : (T.recs.map (fun s => s.point)) ≠ [] := by simpa using hT
  refine ⟨fun i =>
    ((nnQuery (T.recs.map (fun s => s.point)) (Q.pointAt i)).getD (0, 0)).1,
    ?_, ?_, ?_⟩
  · intro i hi
    beta_reduce
    obtain ⟨⟨j, dj⟩, hjd⟩ := nnQuery_isSome _ (Q.pointAt i) hTm
    obtain ⟨hjlen, hdj, hmin, hstr⟩ := nnQuery_spec _ _ j dj hjd
    have hjT : j < T.size := by
      simpa [Dotprops.size] using hjlen
    have hjval : ((nnQuery (T.recs.map (fun s => s.point)) (Q.pointAt i)).getD (0, 0)).1 = j := by
      rw [hjd]
      rfl
    rw [hjval]
    have hdjq : dist2 (Q.pointAt i) (T.pointAt j) = dj := by
      rw [hdj, map_point_getD T j (by simpa [Dotprops.size] using hjT), dist2_comm]
    refine ⟨hjT, ?_, ?_⟩
    · intro k hk
      have hk2 : k < (T.recs.map (fun s => s.point)).length := by
        simpa [Dotprops.size] using hk
      have := hmin k hk2
      rw [map_point_getD T k (by simpa [Dotprops.size] using hk)] at this
      rw [hdjq, dist2_comm (Q.pointAt i) (T.pointAt k)]
      exact this
    · intro k hk
      have hkj : k < (T.recs.map (fun s => s.point)).length := by
        have : k < j := hk
        simpa [Dotprops.size] using lt_trans this hjlen
      have := hstr k hk
      rw [map_point_getD T k (by simpa [Dotprops.size] using hkj)] at this
      rw [hdjq, dist2_comm (Q.pointAt i) (T.pointAt k)]
      exact this
  · rw [pairwiseScore_false_ok m Q T hQ hT hdim]
    congr 1
    rw [rawScore, map_eq_range_map (scoreContribution m T) default Q.recs]
    refine congrArg List.sum ?_
    simp only [Dotprops.size]
    apply List.map_congr_left
    intro i hi
    beta_reduce
    obtain ⟨⟨j, dj⟩, hjd⟩ := nnQuery_isSome _ (Q.pointAt i) hTm
    obtain ⟨hjlen, hdj, hmin, hstr⟩ := nnQuery_spec _ _ j dj hjd
    have hpoint : (Q.recs.getD i default).point = Q.pointAt i := rfl
    rw [scoreContribution, hpoint, hjd]
    have hdjq : dj = dist2 (Q.pointAt i) (T.pointAt j) := by
      rw [hdj, map_point_getD T j (by simpa [Dotprops.size] using hjlen), dist2_comm]
    rw [hdjq]
    rfl
  · intro d a hd0
    exact lookupSq_eq_lookup m d a hb hd0

/-! ## Scheduled execution of a batch job -/

/-- Modelled from the spec: a worker computes the cell `ij` of the output
table purely from its pre-assigned row/column indices and writes it into
its own cell; no other cell is touched. -/
def writeCell (m : ScoringMatrix) (Q T : List Dotprops) (n : Bool)
    (st : ℕ × ℕ → Option (Except NBlastError ℚ)) (ij : ℕ × ℕ) :
    ℕ × ℕ → Option (Except NBlastError ℚ) :=
  fun kl =>
    if kl = ij then some (pairwiseScore m (Q.getD ij.1 default) (T.getD ij.2 default) n)
    else st kl

/-- Modelled from the spec: execute a batch job under a schedule: the list
`order` is the order in which the independent cells are computed by the
worker pool. -/
def runSchedule (m : ScoringMatrix) (Q T : List Dotprops) (n : Bool)
    (order : List (ℕ × ℕ)) : ℕ × ℕ → Option (Except NBlastError ℚ) :=
  order.foldl (writeCell m Q T n) (fun _ => none)

/-- The output table assembled from the cells, by pre-assigned row and
column index. -/
def assemble (nq nt : ℕ) (st : ℕ × ℕ → Option (Except NBlastError ℚ)) :
    List (List (Option (Except NBlastError ℚ))) :=
  (List.range nq).map (fun i => (List.range nt).map (fun j => st (i, j)))

theorem foldl_writeCell_eval (m : ScoringMatrix) (Q T : List Dotprops) (n : Bool) :
    ∀ (order : List (ℕ × ℕ)) (st : ℕ × ℕ → Option (Except NBlastError ℚ)) (ij : ℕ × ℕ),
      (order.foldl (writeCell m Q T n) st) ij =
        if ij ∈ order then
          some (pairwiseScore m (Q.getD ij.1 default) (T.getD ij.2 default) n)
        else st ij := by
  intro order
  induction order with
  | nil => intro st ij; simp
  | cons a rest ih =>
    intro st ij
    rw [List.foldl_cons, ih]
    by_cases hr : ij ∈ rest
    · simp [hr]
    · by_cases ha : ij = a
      · subst ha
        simp [hr, writeCell]
      · simp [hr, ha, writeCell]

theorem runSchedule_eval (m : ScoringMatrix) (Q T : List Dotprops) (n : Bool)
    (order : List (ℕ × ℕ)) (ij : ℕ × ℕ) :
    runSchedule m Q T n order ij =
      if ij ∈ order then
        some (pairwiseScore m (Q.getD ij.1 default) (T.getD ij.2 default) n)
      else none := by
  unfold runSchedule
  rw [foldl_writeCell_eval]

/-! ## Dotprops builder -/

/-- Modelled from the spec: the neighbour ordering used to determine the k
nearest spatial neighbours of point `i` (including itself): by squared
Euclidean distance to point `i`, ties resolved to the lowest index. -/
def nbrOrder (pts : List (List ℚ)) (i : ℕ) (j l : ℕ) : Prop :=
  dist2 (pts.getD i []) (pts.getD j []) < dist2 (pts.getD i []) (pts.getD l []) ∨
  (dist2 (pts.getD i []) (pts.getD j []) = dist2 (pts.getD i []) (pts.getD l []) ∧ j ≤ l)

instance (pts : List (List ℚ)) (i : ℕ) : DecidableRel (nbrOrder pts i) := fun j l => by
  unfold nbrOrder; infer_instance

instance (pts : List (List ℚ)) (i : ℕ) : IsTotal ℕ (nbrOrder pts i) := by
  constructor
  intro j l
  unfold nbrOrder
  rcases lt_trichotomy (dist2 (pts.getD i []) (pts.getD j []))
    (dist2 (pts.getD i []) (pts.getD l [])) with h | h | h
  · exact Or.inl (Or.inl h)
  · rcases le_total j l with hjl | hjl
    · exact Or.inl (Or.inr ⟨h, hjl⟩)
    · exact Or.inr (Or.inr ⟨h.symm, hjl⟩)
  · exact Or.inr (Or.inl h)

instance (pts : List (List ℚ)) (i : ℕ) : IsTrans ℕ (nbrOrder pts i) := by
  constructor
  intro a b c hab hbc
  unfold nbrOrder at *
  rcases hab with hab | ⟨hab, hab2⟩ <;> rcases hbc with hbc | ⟨hbc, hbc2⟩
  · exact Or.inl (lt_trans hab hbc)
  · exact Or.inl (hbc ▸ hab)
  · exact Or.inl (hab ▸ hbc)
  · exact Or.inr ⟨hab.trans hbc, le_trans hab2 hbc2⟩

/-- Modelled from the spec: the indices of the k nearest spatial neighbours
of point `i` (including itself, which is at distance 0 of itself). -/
def sortedNbrs (pts : List (List ℚ)) (i k : ℕ) : List ℕ :=
  (List.insertionSort (nbrOrder pts i) (List.range pts.length)).take k

/-- Modelled from the spec: the local neighbourhood of point `i` whose
principal direction is fitted to produce the tangent. -/
def neighborhood (pts : List (List ℚ)) (i k : ℕ) : List (List ℚ) :=
  (sortedNbrs pts i k).map (fun j => pts.getD j [])

/-- Modelled from the spec: the Dotprops Builder. `fitDir` stands for the
principal-direction fit of a local neighbourhood (the dominant eigenvector
of the local scatter matrix, normalized to unit length); the spec leaves
the eigendecomposition method open, so the builder is parametrized by it.
Degenerate geometry is rejected first (`insufficientPoints` for fewer than
2 points), then the neighbourhood size is validated (`invalidParameter`
for k < 1 or k not less than the number of available points). -/
def makeDotprops (fitDir : List (List ℚ) → List ℚ) (k : ℕ) (pts : List (List ℚ)) :
    Except NBlastError Dotprops :=
  if pts.length < 2 then .error .insufficientPoints
  else if k < 1 ∨ pts.length ≤ k then .error .invalidParameter
  else .ok ⟨(List.range pts.length).map
    (fun i => ⟨pts.getD i [], fitDir (neighborhood pts i k), none⟩)⟩

theorem sortedNbrs_length (pts : List (List ℚ)) (i k : ℕ) (hk : k ≤ pts.length) :
    (sortedNbrs pts i k).length = k := by
  unfold sortedNbrs
  rw [List.length_take, (List.perm_insertionSort (nbrOrder pts i) (List.range pts.length)).length_eq]
  simp [min_eq_left, hk]

theorem sortedNbrs_nearest (pts : List (List ℚ)) (i k : ℕ) :
    ∀ j ∈ sortedNbrs pts i k, ∀ l, l < pts.length → l ∉ sortedNbrs pts i k →
      nbrOrder pts i j l := by
  intro j hj l hl hnl
  have hsorted : List.Sorted (nbrOrder pts i)
      (List.insertionSort (nbrOrder pts i) (List.range pts.length)) :=
    List.sorted_insertionSort (nbrOrder pts i) (List.range pts.length)
  have hsplit := List.take_append_drop k
    (List.insertionSort (nbrOrder pts i) (List.range pts.length))
  have hpairwise : List.Pairwise (nbrOrder pts i)
      ((List.insertionSort (nbrOrder pts i) (List.range pts.length)).take k ++
        (List.insertionSort (nbrOrder pts i) (List.range pts.length)).drop k) := by
    rw [hsplit]
    exact hsorted
  obtain ⟨-, -, hcross⟩ := List.pairwise_append.mp hpairwise
  have hls : l ∈ List.insertionSort (nbrOrder pts i) (List.range pts.length) := by
    rw [(List.perm_insertionSort (nbrOrder pts i) (List.range pts.length)).mem_iff]
    exact List.mem_range.mpr hl
  rw [← hsplit] at hls
  rcases List.mem_append.mp hls with hlt | hld
  · exact absurd hlt hnl
  · exact hcross j hj l hld

/-- Membership in the selected neighbourhood indices. -/
theorem sortedNbrs_mem_range (pts : List (List ℚ)) (i k : ℕ) :
    ∀ j ∈ sortedNbrs pts i k, j < pts.length := by
  intro j hj
  have hjs : j ∈ List.insertionSort (nbrOrder pts i) (List.range pts.length) :=
    List.mem_of_mem_take hj
  rw [(List.perm_insertionSort (nbrOrder pts i) (List.range pts.length)).mem_iff] at hjs
  exact List.mem_range.mp hjs

/-! ## Scoring Function: the claimed lookup properties -/

theorem sorted_lt_of_index (bs : List ℚ) (hs : sortedBounds bs) (i j : ℕ)
    (hij : i < j) (hj : j < bs.length) : bs.getD i 0 < bs.getD j 0 := by
  have hi : i < bs.length := lt_trans hij hj
  rw [List.getD_eq_getElem bs 0 hi, List.getD_eq_getElem bs 0 hj]
  have hp := List.pairwise_iff_get.mp hs ⟨i, hi⟩ ⟨j, hj⟩ hij
  simpa using hp

theorem lookup_bin_cell (m : ScoringMatrix) (d a : ℚ) (i j : ℕ)
    (hs1 : sortedBounds m.distBounds) (hs2 : sortedBounds m.dotBounds)
    (hi : i + 1 < m.distBounds.length) (hj : j + 1 < m.dotBounds.length)
    (hd1 : m.distBounds.getD i 0 ≤ d) (hd2 : d < m.distBounds.getD (i + 1) 0)
    (ha1 : m.dotBounds.getD j 0 ≤ a) (ha2 : a < m.dotBounds.getD (j + 1) 0) :
    lookup m d a = (m.cells.getD i []).getD j 0 := by
  unfold lookup
  rw [binIndex_of_mem m.distBounds d i hs1 hi hd1 hd2,
    binIndex_of_mem m.dotBounds a j hs2 hj ha1 ha2]

/-- C5: for every (distance, absolute dot product) input, the Scoring
Function returns the stored cell value of the bin containing the input;
inputs beyond the outer distance boundary clamp to the edge bin (the
lookup is total, so it never fails); and querying exactly a bin center
returns exactly that cell's stored value. -/
theorem scoring_function_bin_lookup (m : ScoringMatrix) (hm : m.valid) :
    (∀ d a (i j : ℕ), i + 1 < m.distBounds.length → j + 1 < m.dotBounds.length →
      m.distBounds.getD i 0 ≤ d → d < m.distBounds.getD (i + 1) 0 →
      m.dotBounds.getD j 0 ≤ a → a < m.dotBounds.getD (j + 1) 0 →
      lookup m d a = (m.cells.getD i []).getD j 0) ∧
    (∀ d a, m.distBounds.getD (m.distBounds.length - 1) 0 ≤ d →
      lookup m d a =
        (m.cells.getD (m.distBounds.length - 2) []).getD (binIndex m.dotBounds a) 0) ∧
    (∀ i j : ℕ, i + 1 < m.distBounds.length → j + 1 < m.dotBounds.length →
      lookup m ((m.distBounds.getD i 0 + m.distBounds.getD (i + 1) 0) / 2)
        ((m.dotBounds.getD j 0 + m.dotBounds.getD (j + 1) 0) / 2) =
        (m.cells.getD i []).getD j 0) := by
  obtain ⟨hs1, hs2, hnn, hl1, hl2, hc1, hc2⟩ := hm
  refine ⟨?_, ?_, ?_⟩
  · intro d a i j hi hj hd1 hd2 ha1 ha2
    exact lookup_bin_cell m d a i j hs1 hs2 hi hj hd1 hd2 ha1 ha2
  · intro d a hd
    unfold lookup
    rw [binIndex_clamp_high m.distBounds d hs1 hl1 hd]
  · intro i j hi hj
    have hdi : m.distBounds.getD i 0 < m.distBounds.getD (i + 1) 0 :=
      sorted_lt_of_index m.distBounds hs1 i (i + 1) (by omega) hi
    have hdj : m.dotBounds.getD j 0 < m.dotBounds.getD (j + 1) 0 :=
      sorted_lt_of_index m.dotBounds hs2 j (j + 1) (by omega) hj
    apply lookup_bin_cell m _ _ i j hs1 hs2 hi hj
    · linarith
    · linarith
    · linarith
    · linarith

/-! ## Claim theorems -/

/-- C6: when the spatial index answers a nearest-neighbour query, the
returned index is in range, carries the (squared) distance to the query,
is of minimal distance among all stored points, and is the lowest stored
index among all points tied at that minimal distance; the query is a pure
function of its inputs, so repeated runs return this same answer. -/
theorem nn_query_tie_break_lowest_index (pts : List (List ℚ)) (q : List ℚ)
    (j : ℕ) (dj : ℚ) (h : nnQuery pts q = some (j, dj)) :
    j < pts.length ∧ dj = dist2 (pts.getD j []) q ∧
    (∀ k, k < pts.length → dj ≤ dist2 (pts.getD k []) q) ∧
    (∀ k, k < pts.length → dist2 (pts.getD k []) q = dj → j ≤ k) := by
  obtain ⟨hlen, hd, hmin, hstr⟩ := nnQuery_spec pts q j dj h
  refine ⟨hlen, hd, hmin, ?_⟩
  intro k hk heq
  by_contra hjk
  have hkj : k < j := by omega
  have hlt := hstr k hkj
  rw [heq] at hlt
  exact lt_irrefl dj hlt

/-- C2: the normalized self-self pairwise score of any non-empty Dotprops
is exactly 1, and in an all-by-all run with queries equal to targets every
diagonal entry of the normalized score matrix is exactly 1. -/
theorem normalized_self_score_is_one (m : ScoringMatrix) :
    (∀ D : Dotprops, D.recs ≠ [] → pairwiseScore m D D true = .ok 1) ∧
    (∀ (L : List Dotprops) (M : List (List ℚ)), scoreMatrix m L L true = .ok M →
      ∀ i, i < L.length → (M.getD i []).getD i 0 = 1) := by
  constructor
  · intro D hD
    have h1 : D.size ≠ 0 := by
      simpa [Dotprops.size, List.length_eq_zero] using hD
    simp [pairwiseScore, h1]
  · intro L M h i hi
    have h2 : exceptMap (fun q => exceptMap (fun t => pairwiseScore m q t true) L) L
        = .ok M := h
    have hrow := exceptMap_ok_getD
      (fun q => exceptMap (fun t => pairwiseScore m q t true) L) default [] L M h2 i hi
    have hcell := exceptMap_ok_getD
      (fun t => pairwiseScore m (L.getD i default) t true) default 0 L (M.getD i [])
      hrow i hi
    beta_reduce at hcell
    set D := L.getD i default with hDdef
    by_cases hD0 : D.size = 0
    · have herr : pairwiseScore m D D true = .error .emptyDotprops := by
        simp [pairwiseScore, hD0]
      rw [herr] at hcell
      cases hcell
    · have hok : pairwiseScore m D D true = .ok 1 := by
        simp [pairwiseScore, hD0]
      rw [hok] at hcell
      exact (Except.ok.inj hcell).symm

/-- C3: whenever the batch orchestrator returns a score matrix, the matrix
has one row per query and one column per target, and each cell equals
exactly the corresponding single-pair score; the cell values are pure
functions of their pre-assigned indices, independent of any execution
order. -/
theorem score_matrix_refines_pairwise (m : ScoringMatrix) (Q T : List Dotprops)
    (n : Bool) (M : List (List ℚ)) (h : scoreMatrix m Q T n = .ok M) :
    M.length = Q.length ∧
    (∀ i, i < Q.length → (M.getD i []).length = T.length) ∧
    (∀ i j, i < Q.length → j < T.length →
      pairwiseScore m (Q.getD i default) (T.getD j default) n
        = .ok ((M.getD i []).getD j 0)) := by
  have h2 : exceptMap (fun q => exceptMap (fun t => pairwiseScore m q t n) T) Q
      = .ok M := h
  refine ⟨exceptMap_ok_length _ Q M h2, ?_, ?_⟩
  · intro i hi
    have hrow := exceptMap_ok_getD _ default [] Q M h2 i hi
    exact exceptMap_ok_length _ T (M.getD i []) hrow
  · intro i j hi hj
    have hrow := exceptMap_ok_getD _ default [] Q M h2 i hi
    exact exceptMap_ok_getD _ default 0 T (M.getD i []) hrow j hj

/-- C7: a batch job writes every cell at its pre-assigned row/column index
with a value that is a pure function of that index, so any two complete
schedules (two runs under arbitrary thread interleavings) assemble
identical output matrices. -/
theorem score_matrix_schedule_independent (m : ScoringMatrix) (Q T : List Dotprops)
    (n : Bool) (order1 order2 : List (ℕ × ℕ))
    (h1 : ∀ i ∈ List.range Q.length, ∀ j ∈ List.range T.length, (i, j) ∈ order1)
    (h2 : ∀ i ∈ List.range Q.length, ∀ j ∈ List.range T.length, (i, j) ∈ order2) :
    assemble Q.length T.length (runSchedule m Q T n order1) =
      assemble Q.length T.length (runSchedule m Q T n order2) ∧
    (∀ i ∈ List.range Q.length, ∀ j ∈ List.range T.length,
      runSchedule m Q T n order1 (i, j) =
        some (pairwiseScore m (Q.getD i default) (T.getD j default) n)) := by
  have hcell : ∀ (order : List (ℕ × ℕ)),
      (∀ i ∈ List.range Q.length, ∀ j ∈ List.range T.length, (i, j) ∈ order) →
      ∀ i ∈ List.range Q.length, ∀ j ∈ List.range T.length,
        runSchedule m Q T n order (i, j) =
          some (pairwiseScore m (Q.getD i default) (T.getD j default) n) := by
    intro order ho i hi j hj
    rw [runSchedule_eval]
    simp [ho i hi j hj]
  refine ⟨?_, hcell order1 h1⟩
  unfold assemble
  apply List.map_congr_left
  intro i hi
  apply List.map_congr_left
  intro j hj
  rw [hcell order1 h1 i hi j hj, hcell order2 h2 i hi j hj]

/-- C8: the Pairwise Scorer fails with emptyDotprops when either operand
has zero points, and with dimensionMismatch when the operands have points
of different coordinate-space dimensionality; and when any pair of a batch
job errors, the batch returns no score matrix at all. -/
theorem pairwise_errors_abort_batch (m : ScoringMatrix) :
    (∀ (Q T : Dotprops) (n : Bool), Q.size = 0 ∨ T.size = 0 →
      pairwiseScore m Q T n = .error .emptyDotprops) ∧
    (∀ (Q T : Dotprops) (n : Bool), Q.size ≠ 0 → T.size ≠ 0 → Q.dim ≠ T.dim →
      pairwiseScore m Q T n = .error .dimensionMismatch) ∧
    (∀ (Q T : List Dotprops) (n : Bool),
      (∃ i ∈ List.range Q.length, ∃ j ∈ List.range T.length,
        ∃ e, pairwiseScore m (Q.getD i default) (T.getD j default) n = .error e) →
      ∀ M, scoreMatrix m Q T n ≠ .ok M) := by
  refine ⟨?_, ?_, ?_⟩
  · intro Q T n h
    simp [pairwiseScore, h]
  · intro Q T n h1 h2 h3
    have h0 : ¬(Q.size = 0 ∨ T.size = 0) := by tauto
    simp [pairwiseScore, h0, h3]
  · rintro Q T n ⟨i, hi, j, hj, e, he⟩ M hM
    have h2 : exceptMap (fun q => exceptMap (fun t => pairwiseScore m q t n) T) Q
        = .ok M := hM
    have hrow := exceptMap_ok_getD _ default [] Q M h2 i (List.mem_range.mp hi)
    have hcell := exceptMap_ok_getD _ default 0 T (M.getD i []) hrow j
      (List.mem_range.mp hj)
    rw [he] at hcell
    cases hcell

theorem built_rec_getD (fitDir : List (List ℚ) → List ℚ) (k : ℕ)
    (pts : List (List ℚ)) (i : ℕ) (hi : i < pts.length) :
    ((List.range pts.length).map
      (fun i => (⟨pts.getD i [], fitDir (neighborhood pts i k), none⟩ : DRec))).getD i default
      = ⟨pts.getD i [], fitDir (neighborhood pts i k), none⟩ := by
  have hi2 : i < ((List.range pts.length).map
      (fun i => (⟨pts.getD i [], fitDir (neighborhood pts i k), none⟩ : DRec))).length := by
    simpa using hi
  rw [List.getD_eq_getElem _ _ hi2, List.getElem_map, List.getElem_range]

/-- C9 (amended): the Dotprops Builder rejects degenerate geometry first:
fewer than 2 points fails with insufficientPoints (with fewer than 2
points no k can be valid, so this clause takes precedence); with at least
2 points, k < 1 or k not less than the point count fails with
invalidParameter; every valid input succeeds, and each point's tangent is
the principal direction fitted to its k-nearest-neighbour neighbourhood
(of size exactly k, nearest by distance with ties to the lowest index),
unit-length whenever the fit produces unit vectors. -/
theorem dotprops_builder_validation_and_tangents
    (fitDir : List (List ℚ) → List ℚ) (k : ℕ) (pts : List (List ℚ)) :
    (pts.length < 2 → makeDotprops fitDir k pts = .error .insufficientPoints) ∧
    (2 ≤ pts.length → (k < 1 ∨ pts.length ≤ k) →
      makeDotprops fitDir k pts = .error .invalidParameter) ∧
    (2 ≤ pts.length → 1 ≤ k → k < pts.length →
      ∃ D : Dotprops, makeDotprops fitDir k pts = .ok D ∧ D.size = pts.length ∧
        ∀ i, i < pts.length →
          D.pointAt i = pts.getD i [] ∧
          D.tangentAt i = fitDir (neighborhood pts i k) ∧
          ((∀ nb, dot (fitDir nb) (fitDir nb) = 1) →
            dot (D.tangentAt i) (D.tangentAt i) = 1) ∧
          (neighborhood pts i k).length = k ∧
          (∀ j ∈ sortedNbrs pts i k, j < pts.length) ∧
          (∀ j ∈ sortedNbrs pts i k, ∀ l, l < pts.length → l ∉ sortedNbrs pts i k →
            nbrOrder pts i j l)) := by
  refine ⟨?_, ?_, ?_⟩
  · intro h
    simp [makeDotprops, h]
  · intro h2 hk
    have h2n : ¬pts.length < 2 := by omega
    unfold makeDotprops
    rw [if_neg h2n, if_pos hk]
  · intro h2 hk1 hk2
    have h2n : ¬pts.length < 2 := by omega
    have hkn : ¬(k < 1 ∨ pts.length ≤ k) := by omega
    refine ⟨⟨(List.range pts.length).map
      (fun i => ⟨pts.getD i [], fitDir (neighborhood pts i k), none⟩)⟩,
      by unfold makeDotprops; rw [if_neg h2n, if_neg hkn], by simp [Dotprops.size], ?_⟩
    intro i hi
    have hrec := built_rec_getD fitDir k pts i hi
    have hpt : Dotprops.pointAt ⟨(List.range pts.length).map
        (fun i => ⟨pts.getD i [], fitDir (neighborhood pts i k), none⟩)⟩ i
        = pts.getD i [] := by
      rw [Dotprops.pointAt, hrec]
    have htg : Dotprops.tangentAt ⟨(List.range pts.length).map
        (fun i => ⟨pts.getD i [], fitDir (neighborhood pts i k), none⟩)⟩ i
        = fitDir (neighborhood pts i k) := by
      rw [Dotprops.tangentAt, hrec]
    refine ⟨hpt, htg, ?_, ?_, sortedNbrs_mem_range pts i k, sortedNbrs_nearest pts i k⟩
    · intro hfit
      rw [htg]
      exact hfit (neighborhood pts i k)
    · rw [neighborhood, List.length_map]
      exact sortedNbrs_length pts i k (le_of_lt hk2)

/-- C9 counterexample: on a single-point cloud with k = 1 the claim as
stated demands invalidParameter (k equals the number of available points)
AND insufficientPoints (fewer than 2 points) at once; the builder reports
insufficientPoints, so the invalidParameter clause of the claim fails at
this input. -/
theorem dotprops_builder_single_point_counterexample :
    makeDotprops (fun _ => [1, 0, 0]) 1 [[0, 0, 0]]
      = .error .insufficientPoints ∧
    ¬(makeDotprops (fun _ => [1, 0, 0]) 1 [[0, 0, 0]]
      = .error .invalidParameter) := by
  constructor
  · rfl
  · intro hcontra
    have h1 : makeDotprops (fun _ => ([1, 0, 0] : List ℚ)) 1 [[0, 0, 0]]
        = .error .insufficientPoints := rfl
    rw [h1] at hcontra
    simp at hcontra

/-! ## Convenience path over raw geometry -/

/-- Modelled from the spec: build dotprops for a whole list of raw neuron
point clouds; a failing build aborts the whole conversion. -/
def buildAll (fitDir : List (List ℚ) → List ℚ) (k : ℕ) :
    List (List (List ℚ)) → Except NBlastError (List Dotprops)
  | [] => .ok []
  | n :: ns =>
    match makeDotprops fitDir k n with
    | .error e => .error e
    | .ok d =>
      match buildAll fitDir k ns with
      | .error e => .error e
      | .ok ds => .ok (d :: ds)

/-- Modelled from the spec: the convenience entry point taking raw neuron
geometry and a neighbourhood size k: it converts every neuron to dotprops
internally (no resampling) and then runs the batch orchestrator. -/
def nblastRaw (fitDir : List (List ℚ) → List ℚ) (m : ScoringMatrix) (k : ℕ)
    (rawQ rawT : List (List (List ℚ))) (normalize : Bool) :
    Except NBlastError (List (List ℚ)) :=
  match buildAll fitDir k rawQ with
  | .error e => .error e
  | .ok qs =>
    match buildAll fitDir k rawT with
    | .error e => .error e
    | .ok ts => scoreMatrix m qs ts normalize

/-- The explicit path: the caller builds the dotprops first (same k, no
resampling) and then runs the batch orchestrator on them. -/
def nblastExplicit (fitDir : List (List ℚ) → List ℚ) (m : ScoringMatrix) (k : ℕ)
    (rawQ rawT : List (List (List ℚ))) (normalize : Bool) :
    Except NBlastError (List (List ℚ)) :=
  match exceptMap (makeDotprops fitDir k) rawQ with
  | .error e => .error e
  | .ok qs =>
    match exceptMap (makeDotprops fitDir k) rawT with
    | .error e => .error e
    | .ok ts => scoreMatrix m qs ts normalize

theorem buildAll_eq_exceptMap (fitDir : List (List ℚ) → List ℚ) (k : ℕ) :
    ∀ l : List (List (List ℚ)), buildAll fitDir k l = exceptMap (makeDotprops fitDir k) l := by
  intro l
  induction l with
  | nil => rfl
  | cons n ns ih =>
    simp only [buildAll, exceptMap, ih]
    cases makeDotprops fitDir k n with
    | error e => rfl
    | ok d =>
      cases exceptMap (makeDotprops fitDir k) ns with
      | error e => rfl
      | ok ds => rfl

/-- C10: running NBLAST on raw neuron geometry with neighbourhood size k
produces exactly the same result (score matrix or error) as first building
the dotprops externally with the same k and no resampling, and running
NBLAST on those dotprops. -/
theorem convenience_path_equals_explicit (fitDir : List (List ℚ) → List ℚ)
    (m : ScoringMatrix) (k : ℕ) (rawQ rawT : List (List (List ℚ))) (normalize : Bool) :
    nblastRaw fitDir m k rawQ rawT normalize
      = nblastExplicit fitDir m k rawQ rawT normalize := by
  unfold nblastRaw nblastExplicit
  rw [buildAll_eq_exceptMap, buildAll_eq_exceptMap]

/-! ## Concrete example objects -/

/-- A small well-formed scoring table: distance bins [0,1) and [1,10]
(clamping beyond 10), one dot-product bin [0,1]; near matches score 1,
far matches score 3. -/
def exM : ScoringMatrix := ⟨[0, 1, 10], [0, 1], [[1], [3]]⟩

/-- A one-point dotprops at the origin with tangent along x. -/
def exA : Dotprops := ⟨[⟨[0, 0, 0], [1, 0, 0], none⟩]⟩

/-- A two-point dotprops: the origin and a far point, tangents along x. -/
def exB : Dotprops := ⟨[⟨[0, 0, 0], [1, 0, 0], none⟩, ⟨[5, 0, 0], [1, 0, 0], none⟩]⟩

/-- C4: the pairwise score is asymmetric: there is a valid scoring table
and distinct non-empty dotprops A and B with
score(A,B) different from score(B,A); the scorer preserves the
one-directional nearest-neighbour matching rather than symmetrizing. -/
theorem pairwise_score_asymmetric :
    ∃ (m : ScoringMatrix) (A B : Dotprops), m.valid ∧ A ≠ B ∧
      1 ≤ A.size ∧ 1 ≤ B.size ∧
      pairwiseScore m A B false ≠ pairwiseScore m B A false := by
  refine ⟨exM, exA, exB, by decide, by decide, by decide, by decide, ?_⟩
  have h1 : pairwiseScore exM exA exB false = .ok 1 := by
    norm_num [pairwiseScore, exM, exA, exB, Dotprops.size, Dotprops.dim, rawScore,
      scoreContribution, nnQuery, nnFrom, dist2, dot, lookupSq, binIndexSq, binIndex]
  have h2 : pairwiseScore exM exB exA false = .ok 4 := by
    norm_num [pairwiseScore, exM, exA, exB, Dotprops.size, Dotprops.dim, rawScore,
      scoreContribution, nnQuery, nnFrom, dist2, dot, lookupSq, binIndexSq, binIndex]
  rw [h1, h2]
  intro hcontra
  have hval := Except.ok.inj hcontra
  norm_num at hval

/-! ## Witnesses: the claim theorems applied at concrete inputs -/

/-- C1 witness: the raw-score decomposition holds at the concrete query
`exA` and target `exB` under the concrete table `exM`. -/
theorem raw_score_sum_witness :
    ∃ mt : ℕ → ℕ,
      (∀ i, i < exA.size → mt i < exB.size ∧
        (∀ k, k < exB.size →
          dist2 (exA.pointAt i) (exB.pointAt (mt i))
            ≤ dist2 (exA.pointAt i) (exB.pointAt k)) ∧
        (∀ k, k < mt i →
          dist2 (exA.pointAt i) (exB.pointAt (mt i))
            < dist2 (exA.pointAt i) (exB.pointAt k))) ∧
      pairwiseScore exM exA exB false = .ok (((List.range exA.size).map (fun i =>
        lookupSq exM (dist2 (exA.pointAt i) (exB.pointAt (mt i)))
          |dot (exA.tangentAt i) (exB.tangentAt (mt i))|)).sum) ∧
      (∀ d a : ℚ, 0 ≤ d → lookupSq exM (d ^ 2) a = lookup exM d a) :=
  raw_score_is_sum_of_nn_lookups exM exA exB (by decide) (by decide) (by decide)
    (by decide)

/-- C3 witness: a concrete 1-query, 2-target batch returns the matrix
[[1, 1]], and each cell is exactly the corresponding single-pair score. -/
theorem score_matrix_refines_witness :
    ([[1, 1]] : List (List ℚ)).length = ([exA] : List Dotprops).length ∧
    (∀ i, i < ([exA] : List Dotprops).length →
      (([[1, 1]] : List (List ℚ)).getD i []).length
        = ([exA, exB] : List Dotprops).length) ∧
    (∀ i j, i < ([exA] : List Dotprops).length →
      j < ([exA, exB] : List Dotprops).length →
      pairwiseScore exM (([exA] : List Dotprops).getD i default)
        (([exA, exB] : List Dotprops).getD j default) false
        = .ok ((([[1, 1]] : List (List ℚ)).getD i []).getD j 0)) :=
  score_matrix_refines_pairwise exM [exA] [exA, exB] false [[1, 1]]
    (by norm_num [scoreMatrix, exceptMap, pairwiseScore, exM, exA, exB,
      Dotprops.size, Dotprops.dim, rawScore, scoreContribution, nnQuery, nnFrom,
      dist2, dot, lookupSq, binIndexSq, binIndex])

/-- C5 witness: the bin-lookup properties hold for the concrete valid
table `exM`. -/
theorem scoring_lookup_witness :
    (∀ d a (i j : ℕ), i + 1 < exM.distBounds.length → j + 1 < exM.dotBounds.length →
      exM.distBounds.getD i 0 ≤ d → d < exM.distBounds.getD (i + 1) 0 →
      exM.dotBounds.getD j 0 ≤ a → a < exM.dotBounds.getD (j + 1) 0 →
      lookup exM d a = (exM.cells.getD i []).getD j 0) ∧
    (∀ d a, exM.distBounds.getD (exM.distBounds.length - 1) 0 ≤ d →
      lookup exM d a =
        (exM.cells.getD (exM.distBounds.length - 2) []).getD (binIndex exM.dotBounds a) 0) ∧
    (∀ i j : ℕ, i + 1 < exM.distBounds.length → j + 1 < exM.dotBounds.length →
      lookup exM ((exM.distBounds.getD i 0 + exM.distBounds.getD (i + 1) 0) / 2)
        ((exM.dotBounds.getD j 0 + exM.dotBounds.getD (j + 1) 0) / 2) =
        (exM.cells.getD i []).getD j 0) :=
  scoring_function_bin_lookup exM (by decide)

/-- C6 witness: the query point is equidistant (distance 1) to stored
points 0 and 1; the index returned is the lowest of the tied pair. -/
theorem nn_tie_break_witness :
    (0 : ℕ) < ([[1, 0, 0], [-1, 0, 0], [2, 0, 0]] : List (List ℚ)).length ∧
    (1 : ℚ) = dist2 (([[1, 0, 0], [-1, 0, 0], [2, 0, 0]] : List (List ℚ)).getD 0 [])
      [0, 0, 0] ∧
    (∀ k, k < ([[1, 0, 0], [-1, 0, 0], [2, 0, 0]] : List (List ℚ)).length →
      (1 : ℚ) ≤ dist2 (([[1, 0, 0], [-1, 0, 0], [2, 0, 0]] : List (List ℚ)).getD k [])
        [0, 0, 0]) ∧
    (∀ k, k < ([[1, 0, 0], [-1, 0, 0], [2, 0, 0]] : List (List ℚ)).length →
      dist2 (([[1, 0, 0], [-1, 0, 0], [2, 0, 0]] : List (List ℚ)).getD k []) [0, 0, 0]
        = (1 : ℚ) → 0 ≤ k) :=
  nn_query_tie_break_lowest_index [[1, 0, 0], [-1, 0, 0], [2, 0, 0]] [0, 0, 0] 0 1
    (by norm_num [nnQuery, nnFrom, dist2])

/-- C7 witness: two different complete schedules of a concrete 1x1 batch
(one writes the cell once, the other twice) assemble identical matrices. -/
theorem schedule_independent_witness :
    assemble ([exA] : List Dotprops).length ([exA] : List Dotprops).length
      (runSchedule exM [exA] [exA] false [(0, 0)]) =
      assemble ([exA] : List Dotprops).length ([exA] : List Dotprops).length
        (runSchedule exM [exA] [exA] false [(0, 0), (0, 0)]) ∧
    (∀ i ∈ List.range ([exA] : List Dotprops).length,
      ∀ j ∈ List.range ([exA] : List Dotprops).length,
      runSchedule exM [exA] [exA] false [(0, 0)] (i, j) =
        some (pairwiseScore exM (([exA] : List Dotprops).getD i default)
          (([exA] : List Dotprops).getD j default) false)) :=
  score_matrix_schedule_independent exM [exA] [exA] false [(0, 0)] [(0, 0), (0, 0)]
    (by decide) (by decide)

end NBlast
